import Mathlib

/-!
  # Verification of minecraft-je-motd (`src/main.go`)

  Shallow embedding of the core of the `minecraft-je-motd` command-line
  tool: the Minecraft Java Edition status-ping wire protocol (VarInt codec,
  handshake/status packets, latency measurement) and the recursive chat
  component renderer (plain-text and ANSI-colored projections).

  The repository ships two variants of `main.go` (version `1.0.0` and
  version `1.0.3-HTTPS-DNS`).  The VarInt codec, the renderer and
  `getServerStatus` are byte-for-byte identical in both variants; only the
  `main` orchestration differs, and where a claim depends on that
  difference both variants are embedded separately.

  Modelling choices:
  * Go byte streams become `List Nat` (each entry a byte value);
    Go's signed 64-bit `int` holding non-negative VarInt values becomes
    `Nat`, with the source's `&`, `|`, `<<`, `>>` mapped to `&&&`, `|||`,
    `<<<`, `>>>` on `Nat`.
  * Go strings are Lean `String`s; where Go indexes raw UTF-8 bytes
    (`len`, slicing, `strings.HasPrefix`) the embedding goes through
    `strBytes`, an explicit UTF-8 byte expansion.
  * The network connection of `getServerStatus` is replaced by an explicit
    event trace: the bytes written, the bytes read from a given input
    stream, and the two `time.Now`/`time.Since` timer events.
-/

/-! ## VarInt codec (`writeVarInt` / `readVarInt`, identical in both variants) -/

/-- Models `writeVarInt(buf, value)` from `src/main.go`: the list of bytes the
loop appends to `buf`, for a non-negative `value`.  Each step emits the low
7 bits (`value & 0x7F`), sets the continuation bit `0x80` when the value
shifted right by 7 is still non-zero, and stops when it is zero. -/
def writeVarInt (value : Nat) : List Nat :=
  let temp := value &&& 0x7F
  if _h : value >>> 7 = 0 then [temp]
  else (temp ||| 0x80) :: writeVarInt (value >>> 7)
termination_by value
decreasing_by
  simp only [Nat.shiftRight_eq_div_pow] at *
  omega

/-- The two ways `readVarInt` in the source can fail. -/
inductive VarIntErr where
  /-- `r.Read` returned an error: the byte stream was exhausted. -/
  | ioErr
  /-- The source's `VarInt 太长` ("VarInt too long") error. -/
  | tooLong
deriving DecidableEq

/-- Models the loop of `readVarInt(r)` from `src/main.go`, reading from the
remaining byte stream with accumulator `num` and byte counter `numRead`.
Returns the result together with the consumed bytes and the unread
remainder of the stream.  Each iteration reads one byte `b`, accumulates
`b & 0x7F` shifted by `7*numRead`, stops when `b & 0x80` is clear, and
fails with the "too long" error when `numRead`, after its increment,
exceeds 5. -/
def readVarIntGo : List Nat → Nat → Nat → Except VarIntErr Nat × List Nat × List Nat
  | [], _, _ => (Except.error VarIntErr.ioErr, [], [])
  | b :: rest, num, numRead =>
    let val := b &&& 0x7F
    let num' := num ||| (val <<< (7 * numRead))
    if b &&& 0x80 = 0 then (Except.ok num', [b], rest)
    else if numRead + 1 > 5 then (Except.error VarIntErr.tooLong, [b], rest)
    else
      let r := readVarIntGo rest num' (numRead + 1)
      (r.1, b :: r.2.1, r.2.2)

/-- Models `readVarInt(r)`: the value (or error) produced from a byte
stream, starting with `num = 0` and `numRead = 0` as in the source. -/
def readVarInt (input : List Nat) : Except VarIntErr Nat :=
  (readVarIntGo input 0 0).1

/-- Arithmetic reading of one `writeVarInt` step: the emitted byte is the
value mod 128, with 128 added as continuation marker when the quotient is
non-zero. -/
theorem writeVarInt_eq_arith (v : Nat) :
    writeVarInt v = if v / 128 = 0 then [v % 128] else (v % 128 + 128) :: writeVarInt (v / 128) := by
  have hshift : v >>> 7 = v / 128 := by
    rw [Nat.shiftRight_eq_div_pow]
  have hmask : v &&& 0x7F = v % 128 := by
    have h := Nat.and_pow_two_sub_one_eq_mod v 7
    norm_num at h
    exact h
  have hor : v % 128 ||| 0x80 = v % 128 + 128 := by
    have hlt : v % 128 < 2 ^ 7 := by
      have := Nat.mod_lt v (y := 128) (by norm_num)
      norm_num
      omega
    have h := Nat.mul_add_lt_is_or hlt 1
    norm_num at h
    rw [Nat.lor_comm]
    omega
  rw [writeVarInt]
  simp only [hshift, hmask, hor, dite_eq_ite]

/-- `writeVarInt` at a value below 128 is the single byte of that value. -/
theorem writeVarInt_small {v : Nat} (h : v < 128) : writeVarInt v = [v] := by
  rw [writeVarInt_eq_arith]
  rw [if_pos (by omega)]
  congr 1
  omega

/-- A byte below 128 has its continuation bit clear. -/
theorem and_128_eq_zero_of_lt {b : Nat} (h : b < 128) : b &&& 0x80 = 0 := by
  have h7 : b.testBit 7 = false := Nat.testBit_lt_two_pow (by norm_num; omega)
  have := Nat.and_two_pow b 7
  norm_num at this
  rw [this, h7]
  rfl

/-- A byte in `[128, 256)` has its continuation bit set. -/
theorem and_128_ne_zero_of_ge {b : Nat} (h1 : 128 ≤ b) (h2 : b < 256) : b &&& 0x80 ≠ 0 := by
  have h7 : b.testBit 7 = true := by
    simp only [Nat.testBit_to_div_mod, decide_eq_true_eq]
    norm_num
    omega
  have := Nat.and_two_pow b 7
  norm_num at this
  rw [this, h7]
  norm_num

/-- Accumulating disjoint 7-bit groups with `|||` is addition: the bridge
between the source's `num |= val << (7*numRead)` and plain arithmetic. -/
theorem lor_shift_eq_add {num : Nat} (val k : Nat) (h : num < 2 ^ k) :
    num ||| val <<< k = num + val * 2 ^ k := by
  rw [Nat.shiftLeft_eq, Nat.lor_comm]
  have := Nat.mul_add_lt_is_or h val
  rw [Nat.mul_comm] at this
  omega

/-- Main round-trip invariant of the codec loop.  Decoding a stream that
starts with the encoding of `v`, from an intermediate loop state with byte
counter `k` and accumulator `num` holding only bits below `7*k`, succeeds
and adds `v`'s value at bit offset `7*k`.  The bound `v < 2 ^ (7 * (6 - k))`
expresses that the encoding fits in the bytes the reader still accepts. -/
theorem readVarIntGo_writeVarInt (v : Nat) :
    ∀ (k num : Nat) (rest : List Nat), k ≤ 5 → v < 2 ^ (7 * (6 - k)) → num < 2 ^ (7 * k) →
      (readVarIntGo (writeVarInt v ++ rest) num k).1 = Except.ok (num + v * 2 ^ (7 * k)) := by
  induction v using Nat.strong_induction_on with
  | _ v ih =>
    intro k num rest hk hv hnum
    rw [writeVarInt_eq_arith]
    by_cases hsmall : v / 128 = 0
    · -- final byte: `v` itself, continuation bit clear
      rw [if_pos hsmall]
      have hvlt : v < 128 := by omega
      have hv128 : v % 128 = v := Nat.mod_eq_of_lt hvlt
      rw [hv128]
      simp only [List.cons_append, List.nil_append, readVarIntGo]
      rw [if_pos (and_128_eq_zero_of_lt hvlt)]
      have hmask : v &&& 0x7F = v := by
        have h := Nat.and_pow_two_sub_one_eq_mod v 7
        norm_num at h
        rw [h]
        exact hv128
      simp only [hmask]
      rw [lor_shift_eq_add v (7 * k) hnum]
    · -- continuation byte `v % 128 + 128`, then the encoding of `v / 128`
      rw [if_neg hsmall]
      have hb1 : 128 ≤ v % 128 + 128 := by omega
      have hb2 : v % 128 + 128 < 256 := by omega
      simp only [List.cons_append, readVarIntGo]
      rw [if_neg (and_128_ne_zero_of_ge hb1 hb2)]
      have hk4 : k ≤ 4 := by
        by_contra hgt
        have hk5 : k = 5 := by omega
        rw [hk5] at hv
        norm_num at hv
        omega
      rw [if_neg (by omega : ¬ k + 1 > 5)]
      have hmask : (v % 128 + 128) &&& 0x7F = v % 128 := by
        have h := Nat.and_pow_two_sub_one_eq_mod (v % 128 + 128) 7
        norm_num at h
        rw [h]
      simp only [hmask]
      rw [lor_shift_eq_add (v % 128) (7 * k) hnum]
      have hlt : v / 128 < v := by omega
      have hpow : (2 : Nat) ^ (7 * (6 - k)) = 128 * 2 ^ (7 * (5 - k)) := by
        have : 7 * (6 - k) = 7 + 7 * (5 - k) := by omega
        rw [this, pow_add]
        norm_num
      have hv' : v / 128 < 2 ^ (7 * (6 - (k + 1))) := by
        have h6 : 6 - (k + 1) = 5 - k := by omega
        rw [h6]
        rw [hpow] at hv
        exact Nat.div_lt_of_lt_mul hv
      have hnum' : num + v % 128 * 2 ^ (7 * k) < 2 ^ (7 * (k + 1)) := by
        have hm : v % 128 < 128 := Nat.mod_lt v (by norm_num)
        have hple : num + v % 128 * 2 ^ (7 * k) < 128 * 2 ^ (7 * k) := by
          have : v % 128 * 2 ^ (7 * k) ≤ 127 * 2 ^ (7 * k) :=
            Nat.mul_le_mul_right _ (by omega)
          have hp : 0 < (2 : Nat) ^ (7 * k) := Nat.pos_pow_of_pos _ (by norm_num)
          omega
        have hpow' : (2 : Nat) ^ (7 * (k + 1)) = 128 * 2 ^ (7 * k) := by
          have : 7 * (k + 1) = 7 * k + 7 := by omega
          rw [this, pow_add]
          ring
        omega
      have hrec := ih (v / 128) hlt (k + 1) (num + v % 128 * 2 ^ (7 * k)) rest
        (by omega) hv' hnum'
      simp only [List.append_eq]
      rw [hrec]
      congr 1
      have hsplit : v % 128 + 128 * (v / 128) = v := Nat.mod_add_div v 128
      have h7k1 : (2 : Nat) ^ (7 * (k + 1)) = 2 ^ (7 * k) * 128 := by
        have : 7 * (k + 1) = 7 * k + 7 := by omega
        rw [this, pow_add]
        norm_num
      rw [h7k1]
      conv_rhs => rw [← hsplit]
      ring

/-- Claim C2: for every non-negative integer `v` representable within the
5-byte VarInt limit (`v < 2 ^ 35`), decoding the byte sequence produced by
encoding `v` yields `v` again: `readVarInt` applied to the output of
`writeVarInt v` returns `v`. -/
theorem varint_roundtrip (v : Nat) (h : v < 2 ^ 35) :
    readVarInt (writeVarInt v) = Except.ok v := by
  have hv : v < 2 ^ (7 * (6 - 0)) := by
    calc v < 2 ^ 35 := h
    _ ≤ 2 ^ (7 * (6 - 0)) := by norm_num
  have hmain := readVarIntGo_writeVarInt v 0 0 [] (by omega) hv (by norm_num)
  rw [List.append_nil] at hmain
  unfold readVarInt
  rw [hmain]
  norm_num

/-- Witness for C2 at `v = 300`. -/
theorem varint_roundtrip_witness :
    300 < 2 ^ 35 ∧ readVarInt (writeVarInt 300) = Except.ok 300 :=
  ⟨by norm_num, varint_roundtrip 300 (by norm_num)⟩

/-- Claim C3: on a byte stream whose first six bytes all carry the
continuation bit — i.e. more than 5 bytes are occupied before any
termination — `readVarInt` returns the "too long" error rather than a
value.  (The embedding is a total function, so the loop cannot run
forever, and the error return rules out a silently wrapped value.) -/
theorem readVarInt_tooLong (b0 b1 b2 b3 b4 b5 : Nat) (rest : List Nat)
    (h0 : b0 &&& 0x80 ≠ 0) (h1 : b1 &&& 0x80 ≠ 0) (h2 : b2 &&& 0x80 ≠ 0)
    (h3 : b3 &&& 0x80 ≠ 0) (h4 : b4 &&& 0x80 ≠ 0) (h5 : b5 &&& 0x80 ≠ 0) :
    readVarInt (b0 :: b1 :: b2 :: b3 :: b4 :: b5 :: rest) = Except.error VarIntErr.tooLong := by
  unfold readVarInt
  simp only [readVarIntGo, if_neg h0, if_neg h1, if_neg h2, if_neg h3, if_neg h4, if_neg h5]
  norm_num

/-- Witness for C3 on six bare continuation bytes `0x80`. -/
theorem readVarInt_tooLong_witness :
    (0x80 &&& 0x80 ≠ 0) ∧
      readVarInt [0x80, 0x80, 0x80, 0x80, 0x80, 0x80] = Except.error VarIntErr.tooLong :=
  ⟨by decide,
    readVarInt_tooLong 0x80 0x80 0x80 0x80 0x80 0x80 []
      (by decide) (by decide) (by decide) (by decide) (by decide) (by decide)⟩

/-- Claim C4: for every non-negative integer input, `writeVarInt` emits at
least one byte (the embedding is a total function, so it terminates), and
the input `0` emits exactly the single byte `0x00`. -/
theorem writeVarInt_emits (v : Nat) :
    1 ≤ (writeVarInt v).length ∧ writeVarInt 0 = [0] := by
  constructor
  · rw [writeVarInt_eq_arith]
    split <;> simp
  · rw [writeVarInt_eq_arith]
    norm_num

/-! ## Strings as UTF-8 bytes

Go strings are raw UTF-8 byte sequences: `len`, indexing and
`strings.HasPrefix` all work on bytes.  `strBytes` makes that byte view
explicit for a Lean `String`. -/

/-- The UTF-8 encoding of a single character, as byte values. -/
def utf8Bytes (c : Char) : List Nat :=
  let v := c.toNat
  if v < 0x80 then [v]
  else if v < 0x800 then [0xC0 + v / 64, 0x80 + v % 64]
  else if v < 0x10000 then [0xE0 + v / 4096, 0x80 + v / 64 % 64, 0x80 + v % 64]
  else [0xF0 + v / 262144, 0x80 + v / 4096 % 64, 0x80 + v / 64 % 64, 0x80 + v % 64]

/-- The UTF-8 bytes of a string: the byte view a Go program has of it. -/
def strBytes (s : String) : List Nat :=
  s.toList.flatMap utf8Bytes

/-! ## Color tables and the legacy `§`-code renderer (identical in both variants) -/

/-- Models the `minecraftColorMap` Go map: the 16 named Minecraft colors
and their ANSI escape sequences. -/
def minecraftColorMap : String → Option String
  | "black" => some "\x1b[30m"
  | "dark_blue" => some "\x1b[34m"
  | "dark_green" => some "\x1b[32m"
  | "dark_aqua" => some "\x1b[36m"
  | "dark_red" => some "\x1b[31m"
  | "dark_purple" => some "\x1b[35m"
  | "gold" => some "\x1b[33m"
  | "gray" => some "\x1b[37m"
  | "dark_gray" => some "\x1b[90m"
  | "blue" => some "\x1b[94m"
  | "green" => some "\x1b[92m"
  | "aqua" => some "\x1b[96m"
  | "red" => some "\x1b[91m"
  | "light_purple" => some "\x1b[95m"
  | "yellow" => some "\x1b[93m"
  | "white" => some "\x1b[97m"
  | _ => none

/-- Models the `legacyColorMap` Go map: legacy `§`-code characters
(`0`-`9`, `a`-`f` colors; `l`, `o`, `n`, `m` styles; `r` reset) and their
ANSI escape sequences. -/
def legacyColorMap : Char → Option String
  | '0' => some "\x1b[30m"
  | '1' => some "\x1b[34m"
  | '2' => some "\x1b[32m"
  | '3' => some "\x1b[36m"
  | '4' => some "\x1b[31m"
  | '5' => some "\x1b[35m"
  | '6' => some "\x1b[33m"
  | '7' => some "\x1b[37m"
  | '8' => some "\x1b[90m"
  | '9' => some "\x1b[94m"
  | 'a' => some "\x1b[92m"
  | 'b' => some "\x1b[96m"
  | 'c' => some "\x1b[91m"
  | 'd' => some "\x1b[95m"
  | 'e' => some "\x1b[93m"
  | 'f' => some "\x1b[97m"
  | 'l' => some "\x1b[1m"
  | 'o' => some "\x1b[3m"
  | 'n' => some "\x1b[4m"
  | 'm' => some "\x1b[9m"
  | 'r' => some "\x1b[0m"
  | _ => none

/-- The `ansiReset` constant of the source. -/
def ansiReset : String := "\x1b[0m"

/-- Models one hex-digit byte as read by `strconv.ParseUint(s, 16, 8)`. -/
def hexDigit (b : Nat) : Option Nat :=
  if 48 ≤ b ∧ b ≤ 57 then some (b - 48)
  else if 97 ≤ b ∧ b ≤ 102 then some (b - 87)
  else if 65 ≤ b ∧ b ≤ 70 then some (b - 55)
  else none

/-- Models `strconv.ParseUint(s, 16, 8)` on a two-byte slice with the
error ignored, as in `hexToANSI`: the parsed value, or `0` when the slice
is not two valid hex digits (Go returns value `0` alongside the discarded
syntax error). -/
def parseHexPair : List Nat → Nat
  | [hi, lo] =>
    match hexDigit hi, hexDigit lo with
    | some x, some y => 16 * x + y
    | _, _ => 0
  | _ => 0

/-- Models `hexToANSI(hex)`: empty unless the string is exactly 7 bytes
starting with `#` (byte 35), otherwise a 24-bit ANSI color escape built
from the three hex byte pairs `hex[1:3]`, `hex[3:5]`, `hex[5:7]`. -/
def hexToANSI (hex : String) : String :=
  let bs := strBytes hex
  if bs.length ≠ 7 ∨ bs.head? ≠ some 35 then ""
  else
    let r := (bs.drop 1).take 2
    let g := (bs.drop 3).take 2
    let b := (bs.drop 5).take 2
    "\x1b[38;2;" ++ toString (parseHexPair r) ++ ";" ++ toString (parseHexPair g) ++ ";"
      ++ toString (parseHexPair b) ++ "m"

/-- Models `getColorANSI(color)`: hex strings (byte prefix `#`, as
`strings.HasPrefix` checks bytes) go to `hexToANSI`; otherwise the named
color table is consulted; anything else yields the empty string. -/
def getColorANSI (color : String) : String :=
  if (strBytes color).head? = some 35 then hexToANSI color
  else
    match minecraftColorMap color with
    | some code => code
    | none => ""

/-- Models the scanning loop of `parseLegacyColorString` over the rune
list of the input: a `§` followed by a recognized code character is
replaced by its escape (consuming both); any other rune — including a `§`
not followed by a recognized code, or a trailing `§` — is copied
verbatim. -/
def parseLegacyRunes : List Char → String
  | [] => ""
  | '§' :: c2 :: rest =>
    match legacyColorMap c2 with
    | some code => code ++ parseLegacyRunes rest
    | none => String.singleton '§' ++ parseLegacyRunes (c2 :: rest)
  | c :: rest => String.singleton c ++ parseLegacyRunes rest

/-- Models `parseLegacyColorString(s)`: the scanned runes followed by the
single trailing `ansiReset` the function always appends. -/
def parseLegacyColorString (s : String) : String :=
  parseLegacyRunes s.toList ++ ansiReset

/-! ## The chat component tree (identical in both variants)

`ChatComponentMixed` in the source carries a nullable `TextComponent`
pointer and a `RawString`; its custom `UnmarshalJSON` fills exactly one of
them, and every consumer branches on `TextComponent != nil`.  It is
therefore embedded as a sum. -/

mutual
inductive ChatComponent where
  | mk (text : String) (color : String) (extra : List ChatComponentMixed)
inductive ChatComponentMixed where
  | textComponent (c : ChatComponent)
  | rawString (s : String)
end

mutual
/-- Models `parseChatComponentPlain(component)`: the node's `Text`
followed by each `Extra` child in order. -/
def parseChatComponentPlain : ChatComponent → String
  | .mk text _ extra => text ++ parseChatComponentPlainList extra
/-- The `for _, child := range component.Extra` loop of
`parseChatComponentPlain`: a component child recurses, a raw-string child
contributes itself. -/
def parseChatComponentPlainList : List ChatComponentMixed → String
  | [] => ""
  | .textComponent c :: rest => parseChatComponentPlain c ++ parseChatComponentPlainList rest
  | .rawString s :: rest => s ++ parseChatComponentPlainList rest
end

mutual
/-- Models `parseChatComponentColored(component)`: the node's color escape
when non-empty, the node's `Text` through `parseLegacyColorString`, each
`Extra` child in order, then `ansiReset`. -/
def parseChatComponentColored : ChatComponent → String
  | .mk text color extra =>
    let colorCode := getColorANSI color
    (if colorCode ≠ "" then colorCode else "") ++ parseLegacyColorString text
      ++ parseChatComponentColoredList extra ++ ansiReset
/-- The `for _, child := range component.Extra` loop of
`parseChatComponentColored`: a component child recurses, a raw-string
child goes through `parseLegacyColorString`. -/
def parseChatComponentColoredList : List ChatComponentMixed → String
  | [] => ""
  | .textComponent c :: rest => parseChatComponentColored c ++ parseChatComponentColoredList rest
  | .rawString s :: rest => parseLegacyColorString s ++ parseChatComponentColoredList rest
end

/-! ## Renderer helpers for stating the claims -/

/-- Concatenation of a list of strings in order. -/
def concatAll (l : List String) : String := l.foldr (fun a b => a ++ b) ""

theorem concatAll_cons (a : String) (l : List String) :
    concatAll (a :: l) = a ++ concatAll l := rfl

theorem str_empty_append (s : String) : "" ++ s = s := by
  cases s
  rfl

/-- The plain text a single child contributes (C6's words): a component
child's plain rendering, a raw-string child itself. -/
def mixedPlain : ChatComponentMixed → String
  | .textComponent c => parseChatComponentPlain c
  | .rawString s => s

/-- The colored rendering a single child contributes. -/
def coloredMixed : ChatComponentMixed → String
  | .textComponent c => parseChatComponentColored c
  | .rawString s => parseLegacyColorString s

mutual
/-- Rewriting every color field in a component tree with `f`. -/
def mapColor (f : String → String) : ChatComponent → ChatComponent
  | .mk text color extra => .mk text (f color) (mapColorList f extra)
def mapColorList (f : String → String) : List ChatComponentMixed → List ChatComponentMixed
  | [] => []
  | .textComponent c :: rest => .textComponent (mapColor f c) :: mapColorList f rest
  | .rawString s :: rest => .rawString s :: mapColorList f rest
end

theorem plainList_eq_concatAll (l : List ChatComponentMixed) :
    parseChatComponentPlainList l = concatAll (l.map mixedPlain) := by
  induction l with
  | nil => rfl
  | cons x rest ihr =>
    cases x with
    | textComponent c =>
      simp only [parseChatComponentPlainList, List.map_cons, concatAll_cons, mixedPlain]
      rw [ihr]
    | rawString s =>
      simp only [parseChatComponentPlainList, List.map_cons, concatAll_cons, mixedPlain]
      rw [ihr]

theorem coloredList_eq_concatAll (l : List ChatComponentMixed) :
    parseChatComponentColoredList l = concatAll (l.map coloredMixed) := by
  induction l with
  | nil => rfl
  | cons x rest ihr =>
    cases x with
    | textComponent c =>
      simp only [parseChatComponentColoredList, List.map_cons, concatAll_cons, coloredMixed]
      rw [ihr]
    | rawString s =>
      simp only [parseChatComponentColoredList, List.map_cons, concatAll_cons, coloredMixed]
      rw [ihr]

mutual
theorem plain_mapColor (f : String → String) (c : ChatComponent) :
    parseChatComponentPlain (mapColor f c) = parseChatComponentPlain c := by
  cases c with
  | mk t col ex =>
    simp only [mapColor, parseChatComponentPlain]
    rw [plainList_mapColorList f ex]
theorem plainList_mapColorList (f : String → String) (l : List ChatComponentMixed) :
    parseChatComponentPlainList (mapColorList f l) = parseChatComponentPlainList l := by
  cases l with
  | nil => rfl
  | cons x rest =>
    cases x with
    | textComponent c =>
      simp only [mapColorList, parseChatComponentPlainList]
      rw [plain_mapColor f c, plainList_mapColorList f rest]
    | rawString s =>
      simp only [mapColorList, parseChatComponentPlainList]
      rw [plainList_mapColorList f rest]
end

/-- Claim C6: `parseChatComponentPlain` is exactly the depth-first
concatenation of the node's `text` followed by each child's plain text in
document order (a raw-string child contributes itself), and the result is
unchanged under an arbitrary rewriting of every color field. -/
theorem plain_is_depth_first_concat (t col : String) (ex : List ChatComponentMixed)
    (f : String → String) :
    parseChatComponentPlain (.mk t col ex) = t ++ concatAll (ex.map mixedPlain) ∧
      parseChatComponentPlain (mapColor f (.mk t col ex)) =
        parseChatComponentPlain (.mk t col ex) := by
  constructor
  · simp only [parseChatComponentPlain]
    rw [plainList_eq_concatAll]
  · exact plain_mapColor f (.mk t col ex)

mutual
/-- A component's rendering per claim C7's literal words: the node's own
color escape first, then the node's text verbatim, then each child's
rendering in order, and a reset escape only at the end of the node's
contribution. -/
def coloredClaim : ChatComponent → String
  | .mk text color extra => getColorANSI color ++ text ++ coloredClaimList extra ++ ansiReset
def coloredClaimList : List ChatComponentMixed → String
  | [] => ""
  | .textComponent c :: rest => coloredClaim c ++ coloredClaimList rest
  | .rawString s :: rest => s ++ coloredClaimList rest
end

/-- Counterexample to claim C7 as stated: on `{text: "A", color: "red",
extra: [{text: "B"}]}` the source emits a reset immediately after the
node's own text (inside `parseLegacyColorString`), so its output differs
from the claimed shape "color escape, text, children, one final reset". -/
theorem colored_not_reset_only_at_end :
    parseChatComponentColored (.mk "A" "red" [.textComponent (.mk "B" "" [])]) ≠
      coloredClaim (.mk "A" "red" [.textComponent (.mk "B" "" [])]) := by
  decide

/-- Claim C7 as amended: `parseChatComponentColored` emits the node's
color escape (if any) first, then the node's text rendered through
`parseLegacyColorString` — which appends a reset of its own right after
the text — then each child's rendering in order (raw-string children also
through `parseLegacyColorString`), then a final reset escape; in
particular every colored output ends with the reset sequence. -/
theorem colored_structure (t col : String) (ex : List ChatComponentMixed) :
    parseChatComponentColored (.mk t col ex)
      = getColorANSI col ++ parseLegacyColorString t ++ concatAll (ex.map coloredMixed)
        ++ ansiReset ∧
      ∃ s, parseChatComponentColored (.mk t col ex) = s ++ ansiReset := by
  have hmain : parseChatComponentColored (.mk t col ex)
      = getColorANSI col ++ parseLegacyColorString t ++ concatAll (ex.map coloredMixed)
        ++ ansiReset := by
    simp only [parseChatComponentColored]
    rw [coloredList_eq_concatAll]
    by_cases hc : getColorANSI col = ""
    · rw [hc]
      simp only [ite_self]
    · rw [if_pos hc]
  exact ⟨hmain, _, hmain⟩

/-- Claim C8: `parseLegacyColorString` replaces each `§` followed by a
recognized code by its escape (consuming both characters), passes a `§`
not followed by a recognized code — or trailing — through literally,
copies every other character unchanged, and appends exactly one trailing
reset escape after the scanned runes. -/
theorem legacy_substitution (c c2 : Char) (code : String) (rest : List Char) (s : String) :
    (legacyColorMap c2 = some code →
        parseLegacyRunes ('§' :: c2 :: rest) = code ++ parseLegacyRunes rest) ∧
      (legacyColorMap c2 = none →
        parseLegacyRunes ('§' :: c2 :: rest) = "§" ++ parseLegacyRunes (c2 :: rest)) ∧
      (c ≠ '§' → parseLegacyRunes (c :: rest) = String.singleton c ++ parseLegacyRunes rest) ∧
      parseLegacyRunes ['§'] = "§" ∧
      parseLegacyColorString s = parseLegacyRunes s.toList ++ ansiReset := by
  refine ⟨fun h => ?_, fun h => ?_, fun h => ?_, by decide, rfl⟩
  · simp only [parseLegacyRunes, h]
  · simp only [parseLegacyRunes, h]
    rfl
  · rw [parseLegacyRunes.eq_def]
    split
    · rename_i heq
      exact absurd heq (by simp)
    · rename_i c2 r2 heq
      obtain ⟨hc, -⟩ := List.cons.inj heq
      exact absurd hc h
    · rename_i heq
      obtain ⟨hc, hr⟩ := List.cons.inj heq
      rw [← hc, ← hr]

/-- Witness for C8: a recognized code `§a` substitutes its escape, an
unrecognized `§z` passes through, and the trailing reset is appended. -/
theorem legacy_substitution_witness :
    parseLegacyRunes ('§' :: 'a' :: ['H']) = "\x1b[92m" ++ parseLegacyRunes ['H'] ∧
      parseLegacyRunes ('§' :: 'z' :: ['X']) = "§" ++ parseLegacyRunes ('z' :: ['X']) ∧
      parseLegacyRunes ('X' :: []) = String.singleton 'X' ++ parseLegacyRunes [] ∧
      parseLegacyColorString "§aH" = parseLegacyRunes "§aH".toList ++ ansiReset :=
  ⟨(legacy_substitution 'X' 'a' "\x1b[92m" ['H'] "§aH").1 (by decide),
    (legacy_substitution 'X' 'z' "" ['X'] "§aH").2.1 (by decide),
    (legacy_substitution 'X' 'z' "" [] "§aH").2.2.1 (by decide),
    (legacy_substitution 'X' 'z' "" [] "§aH").2.2.2.2⟩

/-- Claim C10: a color string that is neither one of the 16 named
Minecraft colors nor a 7-byte string starting with `#` (Go's `len` counts
UTF-8 bytes) makes `getColorANSI` return the empty string, and a
component carrying such a color renders its text and children without any
leading color escape instead of failing. -/
theorem unknown_color_renders_plain (color t : String) (ex : List ChatComponentMixed)
    (h1 : minecraftColorMap color = none)
    (h2 : ¬((strBytes color).length = 7 ∧ (strBytes color).head? = some 35)) :
    getColorANSI color = "" ∧
      parseChatComponentColored (.mk t color ex) =
        parseLegacyColorString t ++ parseChatComponentColoredList ex ++ ansiReset := by
  have hempty : getColorANSI color = "" := by
    unfold getColorANSI
    by_cases hh : (strBytes color).head? = some 35
    · rw [if_pos hh]
      have hlen : (strBytes color).length ≠ 7 := fun hl => h2 ⟨hl, hh⟩
      simp only [hexToANSI]
      rw [if_pos (Or.inl hlen)]
    · rw [if_neg hh, h1]
  refine ⟨hempty, ?_⟩
  simp only [parseChatComponentColored, hempty, ite_self]
  rw [str_empty_append]

/-- Witness for C10 at the unnamed, non-hex color `"bogus"`. -/
theorem unknown_color_renders_plain_witness :
    minecraftColorMap "bogus" = none ∧
      ¬((strBytes "bogus").length = 7 ∧ (strBytes "bogus").head? = some 35) ∧
      getColorANSI "bogus" = "" ∧
      parseChatComponentColored (.mk "Hi" "bogus" []) =
        parseLegacyColorString "Hi" ++ parseChatComponentColoredList [] ++ ansiReset :=
  ⟨by decide, by decide,
    (unknown_color_renders_plain "bogus" "Hi" [] (by decide) (by decide)).1,
    (unknown_color_renders_plain "bogus" "Hi" [] (by decide) (by decide)).2⟩

/-! ## The `main` output of a legacy string description (C5)

The two variants differ here.  In v1.0.0 (`src/main.go` lines 352-358) the
string-description branch reads

```
if showText || debug {
    fmt.Println("\n" + parseLegacyColorString(strDesc))
} else {
    fmt.Println("\n" + parseLegacyColorString(strDesc))
}
```

— both arms identical, so `-t` also prints the colored rendering.  In
v1.0.3 (lines 841-852) debug prints the raw string and the colored one,
`-t` prints the raw string, and the default prints the colored one.  The
models below list the MOTD strings printed (labels and the leading blank
line omitted). -/

/-- Models the v1.0.0 string-description output selection. -/
def legacyDescOutputV100 (debug showText : Bool) (desc : String) : List String :=
  if showText || debug then [parseLegacyColorString desc]
  else [parseLegacyColorString desc]

/-- Models the v1.0.3 string-description output selection. -/
def legacyDescOutputV103 (debug showText : Bool) (desc : String) : List String :=
  if debug then [desc, parseLegacyColorString desc]
  else if showText then [desc]
  else [parseLegacyColorString desc]

/-- Claim C5 (code bug in v1.0.0): with plain-text output requested
(`-t`, debug off) and the legacy description `"§aHi"`, v1.0.3 outputs the
source string unchanged, but v1.0.0 outputs the ANSI rendering — the `§a`
code replaced by the green escape and a reset appended — because both
arms of its conditional call `parseLegacyColorString`, contradicting the
help text of its `-t, --text` flag. -/
theorem legacy_plaintext_v100_bug :
    legacyDescOutputV103 false true "§aHi" = ["§aHi"] ∧
      legacyDescOutputV100 false true "§aHi" = ["\x1b[92mHi\x1b[0m"] ∧
      "\x1b[92mHi\x1b[0m" ≠ "§aHi" := by
  decide

/-! ## `getServerStatus` as an I/O event trace (identical in both variants)

The TCP connection is replaced by an event trace: `wr` events carry the
bytes passed to `conn.Write`, `rd` events the bytes a read consumed from
a given input stream (the server's response bytes), and
`timerStart`/`timerStop` mark `start := time.Now()` and
`ping := time.Since(start)`.  The decoding of the payload after
`time.Since` happens in memory (`bytes.NewBuffer(data)`) and performs no
connection I/O, so it adds no events. -/

inductive NetEv where
  | wr (bs : List Nat)
  | rd (bs : List Nat)
  | timerStart
  | timerStop
deriving DecidableEq

/-- The handshake buffer of `getServerStatus`, built statement by
statement: packet id `0x00`, VarInt protocol version 754, VarInt host
byte-length, the host bytes, the port as 2-byte big-endian
(`binary.Write(&handshake, binary.BigEndian, port)` on a `uint16`), and
VarInt next-state 1. -/
def handshakeBuf (host : String) (port : Nat) : List Nat :=
  let buf : List Nat := []
  let buf := buf ++ [0x00]
  let buf := buf ++ writeVarInt 754
  let buf := buf ++ writeVarInt (strBytes host).length
  let buf := buf ++ strBytes host
  let buf := buf ++ [port / 256 % 256, port % 256]
  let buf := buf ++ writeVarInt 1
  buf

/-- The framed packet of `getServerStatus`: VarInt length prefix followed
by the handshake buffer. -/
def packetBuf (host : String) (port : Nat) : List Nat :=
  writeVarInt (handshakeBuf host port).length ++ handshakeBuf host port

/-- The fixed status-request bytes `conn.Write([]byte{0x01, 0x00})`. -/
def statusRequestBytes : List Nat := [0x01, 0x00]

/-- The I/O event trace of `getServerStatus(host, port)` run against the
response byte stream `input`: write the framed handshake, write the
status request, start the timer, read a VarInt length, read that many
payload bytes, stop the timer.  When `readVarInt` fails or the payload
read comes up short (`io.ReadFull` error), the function returns early and
the timer is never stopped. -/
def getServerStatusEvents (host : String) (port : Nat) (input : List Nat) : List NetEv :=
  [NetEv.wr (packetBuf host port), NetEv.wr statusRequestBytes, NetEv.timerStart] ++
    match readVarIntGo input 0 0 with
    | (Except.error _, consumed, _) => [NetEv.rd consumed]
    | (Except.ok len, consumed, rest) =>
      if rest.length < len then [NetEv.rd consumed, NetEv.rd rest]
      else [NetEv.rd consumed, NetEv.rd (rest.take len), NetEv.timerStop]

/-- The claim's packet layout for C9, written as the flat concatenation
`VarInt(len) [0x00, VarInt(754), VarInt(hostLen), host-bytes,
uint16-be port, VarInt(1)]` followed by the status request `0x01 0x00`. -/
def handshakeSpecBytes (host : String) (port : Nat) : List Nat :=
  let body := 0x00 :: (writeVarInt 754 ++ writeVarInt (strBytes host).length ++ strBytes host
    ++ [port / 256 % 256, port % 256] ++ writeVarInt 1)
  writeVarInt body.length ++ body ++ [0x01, 0x00]

/-- The bytes a trace writes before its first read event. -/
def writtenBeforeFirstRead : List NetEv → List Nat
  | [] => []
  | NetEv.rd _ :: _ => []
  | NetEv.wr bs :: rest => bs ++ writtenBeforeFirstRead rest
  | _ :: rest => writtenBeforeFirstRead rest

/-- Claim C9: for every host, port and response stream, the bytes
`getServerStatus` writes before reading are exactly the framed handshake
packet `VarInt(len) [0x00, VarInt(754), VarInt(hostLen), host-bytes,
uint16-be port, VarInt(1)]` immediately followed by the status-request
bytes `0x01 0x00`. -/
theorem writes_are_handshake_then_status (host : String) (port : Nat) (input : List Nat) :
    writtenBeforeFirstRead (getServerStatusEvents host port input) =
      handshakeSpecBytes host port := by
  have hshape : ∃ tail, getServerStatusEvents host port input =
      [NetEv.wr (packetBuf host port), NetEv.wr statusRequestBytes, NetEv.timerStart] ++
        NetEv.rd (readVarIntGo input 0 0).2.1 :: tail := by
    unfold getServerStatusEvents
    rcases hr : readVarIntGo input 0 0 with ⟨res, consumed, rest⟩
    cases res with
    | error e => exact ⟨[], rfl⟩
    | ok len =>
      dsimp only
      by_cases hlen : rest.length < len
      · rw [if_pos hlen]
        exact ⟨[NetEv.rd rest], rfl⟩
      · rw [if_neg hlen]
        exact ⟨[NetEv.rd (rest.take len), NetEv.timerStop], rfl⟩
  obtain ⟨tail, htail⟩ := hshape
  rw [htail]
  simp only [List.cons_append, List.nil_append, writtenBeforeFirstRead]
  unfold handshakeSpecBytes packetBuf handshakeBuf statusRequestBytes
  simp only [List.nil_append, List.append_assoc, List.cons_append]

/-- Claim C1 as amended: `getServerStatus` starts its timer only after
both writes (the framed handshake and the status request) and stops it
after the status response is fully read; between start and stop only read
events occur.  The reported latency is the duration of the status
response exchange — no dedicated ping/pong round trip exists. -/
theorem latency_brackets_status_read (host : String) (port : Nat) (input : List Nat) :
    ∃ tail, getServerStatusEvents host port input =
        [NetEv.wr (packetBuf host port), NetEv.wr statusRequestBytes, NetEv.timerStart] ++ tail ∧
      ∀ e ∈ tail, (∃ bs, e = NetEv.rd bs) ∨ e = NetEv.timerStop := by
  unfold getServerStatusEvents
  rcases readVarIntGo input 0 0 with ⟨res, consumed, rest⟩
  cases res with
  | error e =>
    refine ⟨[NetEv.rd consumed], rfl, ?_⟩
    intro ev hev
    simp only [List.mem_singleton] at hev
    subst hev
    exact Or.inl ⟨consumed, rfl⟩
  | ok len =>
    dsimp only
    by_cases hlen : rest.length < len
    · rw [if_pos hlen]
      refine ⟨[NetEv.rd consumed, NetEv.rd rest], rfl, ?_⟩
      intro ev hev
      simp only [List.mem_cons, List.not_mem_nil, or_false] at hev
      rcases hev with rfl | rfl
      · exact Or.inl ⟨consumed, rfl⟩
      · exact Or.inl ⟨rest, rfl⟩
    · rw [if_neg hlen]
      refine ⟨[NetEv.rd consumed, NetEv.rd (rest.take len), NetEv.timerStop], rfl, ?_⟩
      intro ev hev
      simp only [List.mem_cons, List.not_mem_nil, or_false] at hev
      rcases hev with rfl | rfl | rfl
      · exact Or.inl ⟨consumed, rfl⟩
      · exact Or.inl ⟨rest.take len, rfl⟩
      · exact Or.inr rfl

/-- Recognizer for write events. -/
def NetEv.isWrite : NetEv → Bool
  | .wr _ => true
  | _ => false

theorem writeVarInt_754 : writeVarInt 754 = [242, 5] := by
  simp [writeVarInt_eq_arith]

theorem packetBuf_concrete : packetBuf "a" 25565 = [8, 0, 242, 5, 1, 97, 99, 221, 1] := by
  have ha : strBytes "a" = [97] := by decide
  simp [packetBuf, handshakeBuf, ha, writeVarInt_754, writeVarInt_eq_arith]

/-- Counterexample to claim C1 as stated: on a successful concrete query
(host `"a"`, port 25565, a well-formed 4-byte status response), the trace
of `getServerStatus` starts the timer right after the two writes, reads
the status response length and payload, and stops the timer — no write at
all (hence no ping packet) occurs after the timer starts, so the reported
latency times the status response exchange itself, not a dedicated
ping/pong round trip. -/
theorem latency_is_status_exchange_counterexample :
    getServerStatusEvents "a" 25565 [4, 0, 2, 123, 125] =
      [NetEv.wr [8, 0, 242, 5, 1, 97, 99, 221, 1], NetEv.wr [1, 0], NetEv.timerStart,
        NetEv.rd [4], NetEv.rd [0, 2, 123, 125], NetEv.timerStop] ∧
      ((getServerStatusEvents "a" 25565 [4, 0, 2, 123, 125]).drop 3).all
        (fun e => !e.isWrite) = true := by
  have h1 : getServerStatusEvents "a" 25565 [4, 0, 2, 123, 125] =
      [NetEv.wr [8, 0, 242, 5, 1, 97, 99, 221, 1], NetEv.wr [1, 0], NetEv.timerStart,
        NetEv.rd [4], NetEv.rd [0, 2, 123, 125], NetEv.timerStop] := by
    unfold getServerStatusEvents
    rw [packetBuf_concrete]
    decide
  refine ⟨h1, ?_⟩
  rw [h1]
  decide
